import Mathlib

/-
Shallow embedding of the venus 2D rendering core, translated from the Rust
sources in src/: texture_atlas.rs, graphics.rs, font.rs, lib.rs and shape.rs.
All f32 quantities are modelled as exact rationals; u32 quantities as Nat.
GPU calls (texture creation, sub-image upload, draw calls, uniform updates)
are external effects with no influence on the CPU-side state and are elided;
a Rust panic (failed expect or assert, out-of-bounds index) is modelled by
returning none.
-/

namespace Venus

/-- shape.rs: Rect with f32 fields, modelled over the rationals. -/
structure Rect where
  x : ℚ
  y : ℚ
  width : ℚ
  height : ℚ
deriving DecidableEq, Repr

/-- shape.rs: IRect with i32 fields; every value stored in it by the atlas
comes from a u32 cast, so the model uses Nat. -/
structure IRect where
  x : ℕ
  y : ℕ
  width : ℕ
  height : ℕ
deriving DecidableEq, Repr

/-- color.rs: Color with f32 channels, modelled over the rationals. -/
structure Color where
  r : ℚ
  g : ℚ
  b : ℚ
  a : ℚ
deriving DecidableEq, Repr

/-- color.rs: Color::WHITE. -/
def Color.WHITE : Color := ⟨1, 1, 1, 1⟩

/-- texture_atlas.rs: TextureHandle { atlas: u32, index: u32 }. -/
structure TextureHandle where
  atlas : ℕ
  index : ℕ
deriving DecidableEq, Repr

/-- texture_atlas.rs: bind_point_for_atlas(atlas) = atlas + 1 (a NonZeroU32). -/
def bind_point_for_atlas (atlas : ℕ) : ℕ := atlas + 1

/-- texture_atlas.rs: TextureHandle::bind_point. -/
def TextureHandle.bind_point (t : TextureHandle) : ℕ := bind_point_for_atlas t.atlas

/-- texture_atlas.rs: ATLAS_SIZE = 2048. -/
def ATLAS_SIZE : ℕ := 2048

/-- texture_atlas.rs: TexturePage, minus the GPU backing texture (external).
Holds the shelf-packing cursor and the list of allocated regions. -/
structure TexturePage where
  cursor_x : ℕ
  cursor_y : ℕ
  line_height : ℕ
  texture_uvs : List IRect
deriving DecidableEq, Repr

/-- texture_atlas.rs: TexturePage::new (the GPU texture allocation is external). -/
def TexturePage.new : TexturePage :=
  { cursor_x := 0, cursor_y := 0, line_height := 0, texture_uvs := [] }

/-- texture_atlas.rs: the successful tail of TexturePage::upload_texture —
record the region at the cursor, advance cursor_x, raise line_height.
Returns the new page and the index of the recorded region. -/
def TexturePage.place (p : TexturePage) (width height : ℕ) : TexturePage × ℕ :=
  let index := p.texture_uvs.length
  ({ p with
      texture_uvs := p.texture_uvs ++ [⟨p.cursor_x, p.cursor_y, width, height⟩],
      cursor_x := p.cursor_x + width,
      line_height := max p.line_height height },
   index)

/-- texture_atlas.rs: TexturePage::upload_texture. The image bytes are only
forwarded to the GPU, so they do not appear in the state; none models the
CantFit error. -/
def TexturePage.upload_texture (p : TexturePage) (width height : ℕ) :
    Option (TexturePage × ℕ) :=
  if p.cursor_x + width ≥ ATLAS_SIZE then
    if p.cursor_y + p.line_height + height ≥ ATLAS_SIZE then
      none
    else
      some (TexturePage.place
        { p with cursor_y := p.cursor_y + p.line_height, cursor_x := 0, line_height := 0 }
        width height)
  else
    some (TexturePage.place p width height)

/-- texture_atlas.rs: TextureAtlas { pages }. -/
structure TextureAtlas where
  pages : List TexturePage
deriving DecidableEq, Repr

/-- texture_atlas.rs: TextureAtlas::new. -/
def TextureAtlas.new : TextureAtlas := ⟨[]⟩

/-- texture_atlas.rs: the loop of TextureAtlas::upload_image — try each page
in order, first success wins; returns the updated page list, the page index
and the region index. -/
def tryPages (width height : ℕ) : List TexturePage → Option (List TexturePage × ℕ × ℕ)
  | [] => none
  | p :: rest =>
    match p.upload_texture width height with
    | some (p2, index) => some (p2 :: rest, 0, index)
    | none =>
      (tryPages width height rest).map fun r => (p :: r.1, r.2.1 + 1, r.2.2)

/-- texture_atlas.rs: TextureAtlas::upload_image. On failure of every
existing page a fresh page is allocated and the upload retried there; a
failure even on the fresh page is a panic (the expect), modelled as none. -/
def TextureAtlas.upload_image (a : TextureAtlas) (width height : ℕ) :
    Option (TextureAtlas × TextureHandle) :=
  match tryPages width height a.pages with
  | some (pages2, page_index, index) =>
      some (⟨pages2⟩, ⟨page_index, index⟩)
  | none =>
    match TexturePage.new.upload_texture width height with
    | none => none
    | some (page, index) =>
        some (⟨a.pages ++ [page]⟩, ⟨a.pages.length, index⟩)

/-- Look a handle up in the atlas: pages[handle.atlas].texture_uvs[handle.index].
In Rust this is the indexing done inside TextureAtlas::uv; out of range is a
panic, modelled as none. -/
def TextureAtlas.resolve (a : TextureAtlas) (t : TextureHandle) : Option IRect :=
  (a.pages[t.atlas]?).bind fun p => p.texture_uvs[t.index]?

/-- texture_atlas.rs: TextureAtlas::uv — maps a local UV rect within a
region to atlas-page coordinates: position is region top-left / ATLAS_SIZE
plus the local position, size is the local size divided componentwise by the
region size in texels. -/
def TextureAtlas.uv (a : TextureAtlas) (t : TextureHandle) (uv : Rect) : Option Rect :=
  (a.resolve t).map fun region =>
    { x := (region.x : ℚ) / (ATLAS_SIZE : ℚ) + uv.x,
      y := (region.y : ℚ) / (ATLAS_SIZE : ℚ) + uv.y,
      width := uv.width / (region.width : ℚ),
      height := uv.height / (region.height : ℚ) }

/-- graphics.rs: Graphics, minus the GPU context, the GL buffer objects and
the shader object (external). The projection uniform is kept as the 9 floats
last written to the shader. -/
structure Graphics where
  vertex_data : List ℚ
  index_data : List ℕ
  vertices : ℕ
  atlas : TextureAtlas
  bound_texture : Option ℕ
  projection : List ℚ
deriving DecidableEq, Repr

/-- graphics.rs: Graphics::new — empty accumulators, empty atlas, nothing
bound, identity projection. -/
def Graphics.new : Graphics :=
  { vertex_data := [], index_data := [], vertices := 0,
    atlas := TextureAtlas.new, bound_texture := none,
    projection := [1, 0, 0, 0, 1, 0, 0, 0, 1] }

/-- graphics.rs: Graphics::flush — early return when no vertices are
pending; otherwise the buffer upload and draw call are external, and the
accumulators are cleared. -/
def Graphics.flush (g : Graphics) : Graphics :=
  if g.vertices = 0 then g
  else { g with vertex_data := [], index_data := [], vertices := 0 }

/-- graphics.rs: Graphics::set_projection_matrix — flush, then replace the
projection uniform. -/
def Graphics.set_projection_matrix (g : Graphics) (m : List ℚ) : Graphics :=
  { g.flush with projection := m }

/-- graphics.rs: Graphics::new_texture_from_bytes — delegate to the atlas. -/
def Graphics.new_texture_from_bytes (g : Graphics) (width height : ℕ) :
    Option (Graphics × TextureHandle) :=
  (g.atlas.upload_image width height).map fun r => ({ g with atlas := r.1 }, r.2)

/-- graphics.rs: Graphics::push_vertex — append 8 floats r,g,b,a,x,y,u,v and
bump the running vertex count. -/
def Graphics.push_vertex (g : Graphics) (x y : ℚ) (color : Color) (u v : ℚ) : Graphics :=
  { g with
      vertex_data := g.vertex_data ++ [color.r, color.g, color.b, color.a, x, y, u, v],
      vertices := g.vertices + 1 }

/-- graphics.rs: the tail of Graphics::push_rect shared by the textured and
untextured paths — push the 4 corner vertices and the 6 fan indices based on
the vertex count captured at entry. -/
def Graphics.push_rect_vertices (g : Graphics) (region : Rect) (color : Color)
    (uv : Rect) : Graphics :=
  let index := g.vertices
  let g := g.push_vertex region.x region.y color uv.x uv.y
  let g := g.push_vertex (region.x + region.width) region.y color (uv.x + uv.width) uv.y
  let g := g.push_vertex (region.x + region.width) (region.y + region.height) color
      (uv.x + uv.width) (uv.y + uv.height)
  let g := g.push_vertex region.x (region.y + region.height) color uv.x (uv.y + uv.height)
  { g with
      index_data := g.index_data ++
        [index, index + 1, index + 2, index, index + 2, index + 3] }

/-- graphics.rs: Graphics::push_rect. A texture whose bind point differs
from the currently bound one triggers a flush before anything is appended;
setting the image uniform is external; the untextured path uses the
(-1,-1,0,0) UV sentinel. The second component counts how many times flush
was invoked by this call (0 or 1); none models the panic on an invalid
handle inside TextureAtlas::uv. -/
def Graphics.push_rect (g : Graphics) (region : Rect) (color : Color)
    (texture : Option (TextureHandle × Rect)) : Option (Graphics × ℕ) :=
  match texture with
  | some (t, uvLocal) =>
    let bind_point := t.bind_point
    let fr : Graphics × ℕ :=
      match g.bound_texture with
      | some currently_bound =>
          if bind_point ≠ currently_bound then (g.flush, 1) else (g, 0)
      | none => (g, 0)
    let g1 := { fr.1 with bound_texture := some bind_point }
    (g1.atlas.uv t uvLocal).map fun uv =>
      (g1.push_rect_vertices region color uv, fr.2)
  | none =>
      some (g.push_rect_vertices region color ⟨-1, -1, 0, 0⟩, 0)

/-- lib.rs: Texture — an atlas handle plus a UV rect within the page and the
pixel dimensions. -/
structure Texture where
  handle : TextureHandle
  uv : Rect
  width : ℕ
  height : ℕ
deriving DecidableEq, Repr

/-- lib.rs: Texture::sub_texture — the assert demands x + width <= self.width
and y + height <= self.height (failure modelled as none); the sub-texture
keeps the handle and scales the UV rect. -/
def Texture.sub_texture (t : Texture) (x y width height : ℕ) : Option Texture :=
  if x + width ≤ t.width ∧ y + height ≤ t.height then
    some
      { handle := t.handle,
        uv :=
          { x := t.uv.x + ((x : ℚ) / (t.width : ℚ)) * t.uv.width,
            y := t.uv.y + ((y : ℚ) / (t.height : ℚ)) * t.uv.height,
            width := ((width : ℚ) / (t.width : ℚ)) * t.uv.width,
            height := ((height : ℚ) / (t.height : ℚ)) * t.uv.height },
        width := width,
        height := height }
  else
    none

/-- font.rs: the fields of fontdue Metrics that the code reads — bitmap
width and height, the vertical bearing ymin, and the advance width. -/
structure Metrics where
  width : ℕ
  height : ℕ
  ymin : ℤ
  advance_width : ℚ
deriving DecidableEq, Repr

/-- The font backend (fontdue) is an external collaborator: pure metrics,
rasterization (metrics plus a coverage byte per texel), horizontal kerning,
and horizontal line metrics reduced to the new-line size the code reads. -/
structure FontBackend where
  metricsFn : Char → ℕ → Metrics
  rasterizeFn : Char → ℕ → Metrics × List ℕ
  horizontal_kern : Char → Char → ℕ → Option ℚ
  horizontal_line_metrics : ℕ → Option ℚ

/-- font.rs: Font — the backend plus the glyph cache keyed by (char, size).
The FxHashMap is modelled as an association list with newest entry first,
which has the same lookup/insert semantics. -/
structure Font where
  font : FontBackend
  characters : List ((Char × ℕ) × (Texture × Metrics))

/-- Association-list lookup standing in for HashMap::get. -/
def cacheLookup (cache : List ((Char × ℕ) × (Texture × Metrics))) (key : Char × ℕ) :
    Option (Texture × Metrics) :=
  match cache with
  | [] => none
  | (k, v) :: rest => if k = key then some v else cacheLookup rest key

/-- font.rs: Font::metrics — cached metrics when present, otherwise the pure
backend metrics (no side effect). -/
def Font.metrics (f : Font) (ch : Char) (size : ℕ) : Metrics :=
  match cacheLookup f.characters (ch, size) with
  | some tm => tm.2
  | none => f.font.metricsFn ch size

/-- font.rs: Font::rasterize — entry(...).or_insert_with(...): a hit returns
the stored pair untouched; a miss rasterizes, expands the coverage bitmap to
RGBA (the bytes go straight to the GPU so only length bookkeeping is
external), uploads through the graphics atlas, and stores the entry. none
models the panic inside the atlas upload. -/
def Font.rasterize (f : Font) (ch : Char) (size : ℕ) (graphics : Graphics) :
    Option (Font × Graphics × Texture × Metrics) :=
  match cacheLookup f.characters (ch, size) with
  | some tm => some (f, graphics, tm.1, tm.2)
  | none =>
    let rast := f.font.rasterizeFn ch size
    let metrics := rast.1
    let width := metrics.width
    let height := metrics.height
    match graphics.new_texture_from_bytes width height with
    | none => none
    | some (g2, handle) =>
      let texture : Texture :=
        { handle := handle, uv := ⟨0, 0, 1, 1⟩, width := width, height := height }
      some
        ({ f with characters := ((ch, size), (texture, metrics)) :: f.characters },
         g2, texture, metrics)

/-- font.rs: Font::text_width. Faithful to the source: prev_ch is bound once
to None before the loop and never reassigned, so the kerning branch never
fires; the fold still carries it to mirror the source line by line. -/
def Font.text_width (f : Font) (text : List Char) (size : ℕ) : ℚ :=
  (text.foldl
    (fun acc ch =>
      let width := acc.1
      let prev_ch : Option Char := acc.2
      let width :=
        match prev_ch with
        | some prev =>
          match f.font.horizontal_kern prev ch size with
          | some kern => width + kern
          | none => width
        | none => width
      (width + (f.metrics ch size).advance_width, prev_ch))
    ((0 : ℚ), (none : Option Char))).1

/-- font.rs: Font::line_height — the backend new-line size, or the size
itself when the font provides no line metrics. -/
def Font.line_height (f : Font) (size : ℕ) : ℚ :=
  match f.font.horizontal_line_metrics size with
  | some new_line_size => new_line_size
  | none => (size : ℚ)

/-- font.rs: one entry of TextRenderer::character_buffer, the Rust tuple
(Texture, char, f32, f32). -/
abbrev Glyph := Texture × Char × ℚ × ℚ

/-- font.rs: TextRenderer — the pending word buffer and the positioned
character buffer. -/
structure TextRenderer where
  word_buffer : List Char
  character_buffer : List Glyph

/-- font.rs: TextRenderer::default. -/
def TextRenderer.default : TextRenderer := ⟨[], []⟩

/-- The mutable locals of TextRenderer::layout_text plus the two &mut
parameters threaded through push_character. -/
structure LayoutSt where
  cursor_x : ℚ
  topline : ℚ
  prev_ch : Option Char
  gfx : Graphics
  font : Font
  word_buffer : List Char
  character_buffer : List Glyph

/-- font.rs: TextRenderer::push_character — kern against the previous
emitted character, rasterize, record the glyph at (cursor_x, topline +
(size - bitmap height) - ymin), advance the cursor by the advance width. -/
def pushCharacter (size : ℕ) (ch : Char) (st : LayoutSt) : Option LayoutSt :=
  let cursor_x :=
    match st.prev_ch with
    | some prev =>
      match st.font.font.horizontal_kern prev ch size with
      | some kern => st.cursor_x + kern
      | none => st.cursor_x
    | none => st.cursor_x
  match st.font.rasterize ch size st.gfx with
  | none => none
  | some (font2, gfx2, texture, metrics) =>
    let y := st.topline + (((size : ℚ) - (metrics.height : ℚ)) - (metrics.ymin : ℚ))
    some
      { st with
          cursor_x := cursor_x + metrics.advance_width,
          prev_ch := some ch,
          gfx := gfx2,
          font := font2,
          character_buffer := st.character_buffer ++ [(texture, ch, cursor_x, y)] }

/-- font.rs: the word_buffer.drain(..) loops of layout_text — emit the
buffered characters one by one. -/
def emitChars (size : ℕ) : List Char → LayoutSt → Option LayoutSt
  | [], st => some st
  | ch :: rest, st => (pushCharacter size ch st).bind (emitChars size rest)

/-- font.rs: the body of the character loop of TextRenderer::layout_text.
Non-whitespace accumulates into the word buffer; whitespace measures the
pending word with Font::text_width, wraps when cursor_x + word_length
exceeds x + max_line_length, drains the word, then either breaks the line
(for a newline) or emits the whitespace character itself. -/
def layoutStep (x : ℚ) (size : ℕ) (max_line_length line_height : ℚ)
    (st : LayoutSt) (ch : Char) : Option LayoutSt :=
  if ¬ ch.isWhitespace then
    some { st with word_buffer := st.word_buffer ++ [ch] }
  else
    let word_length := st.font.text_width st.word_buffer size
    let st :=
      if st.cursor_x + word_length > x + max_line_length then
        { st with cursor_x := x, topline := st.topline + line_height, prev_ch := none }
      else st
    let word := st.word_buffer
    let st := { st with word_buffer := [] }
    match emitChars size word st with
    | none => none
    | some st =>
      if ch = '\n' then
        some { st with cursor_x := x, topline := st.topline + line_height, prev_ch := none }
      else
        pushCharacter size ch st

/-- The character loop of TextRenderer::layout_text. -/
def layoutLoop (x : ℚ) (size : ℕ) (max_line_length line_height : ℚ) :
    List Char → LayoutSt → Option LayoutSt
  | [], st => some st
  | ch :: rest, st =>
    (layoutStep x size max_line_length line_height st ch).bind
      (layoutLoop x size max_line_length line_height rest)

/-- font.rs: TextRenderer::layout_text — run the character loop starting at
(x, y), then drain whatever word is still buffered (the final drain performs
no wrap check). Returns the renderer, graphics and font after the call. -/
def TextRenderer.layout_text (tr : TextRenderer) (gfx : Graphics) (font : Font)
    (x y : ℚ) (text : List Char) (size : ℕ) (max_line_length : ℚ) :
    Option (TextRenderer × Graphics × Font) :=
  let line_height := font.line_height size
  let st0 : LayoutSt :=
    { cursor_x := x, topline := y, prev_ch := none, gfx := gfx, font := font,
      word_buffer := tr.word_buffer, character_buffer := tr.character_buffer }
  match layoutLoop x size max_line_length line_height text st0 with
  | none => none
  | some st =>
    let word := st.word_buffer
    match emitChars size word { st with word_buffer := [] } with
    | none => none
    | some st =>
      some (⟨st.word_buffer, st.character_buffer⟩, st.gfx, st.font)

/-- font.rs: TextRenderer::characters — drain the character buffer: yield
its contents and leave it empty. -/
def TextRenderer.characters (tr : TextRenderer) : List Glyph × TextRenderer :=
  (tr.character_buffer, { tr with character_buffer := [] })

/-- Two integer rectangles, read as half-open boxes
[x, x+width) times [y, y+height), do not overlap. -/
def disjointRect (a b : IRect) : Prop :=
  a.x + a.width ≤ b.x ∨ b.x + b.width ≤ a.x ∨
  a.y + a.height ≤ b.y ∨ b.y + b.height ≤ a.y

/-- A region lies fully inside the page square [0, ATLAS_SIZE) squared. -/
def withinPage (r : IRect) : Prop :=
  r.x + r.width ≤ ATLAS_SIZE ∧ r.y + r.height ≤ ATLAS_SIZE

/-- Run a sequence of upload_texture calls against one page, keeping the
page unchanged on a CantFit rejection (as the source does: the Err path
returns before any mutation). -/
def uploadRun : TexturePage → List (ℕ × ℕ) → TexturePage
  | p, [] => p
  | p, wh :: rest =>
    uploadRun
      (match p.upload_texture wh.1 wh.2 with
       | some r => r.1
       | none => p)
      rest

/-- Every width/height pair is positive and no larger than the page. -/
def sizedForPage (l : List (ℕ × ℕ)) : Prop :=
  ∀ wh ∈ l, 1 ≤ wh.1 ∧ wh.1 ≤ ATLAS_SIZE ∧ 1 ≤ wh.2 ∧ wh.2 ≤ ATLAS_SIZE

/-- Shelf-packing invariant for one recorded region: it either lies in a
finished shelf (its bottom at or above the cursor line) or in the open shelf
(top at cursor_y, height within line_height, right edge at or left of
cursor_x). -/
def sheltered (p : TexturePage) (r : IRect) : Prop :=
  r.y + r.height ≤ p.cursor_y ∨
  (r.y = p.cursor_y ∧ r.height ≤ p.line_height ∧ r.x + r.width ≤ p.cursor_x)

/-- Full page invariant: every region is sheltered, horizontally inside the
page and starts at or above the cursor line; regions are pairwise disjoint;
and the cursor line sits at most at row ATLAS_SIZE - 2. -/
def pageInv (p : TexturePage) : Prop :=
  (∀ r ∈ p.texture_uvs, sheltered p r ∧ r.x + r.width ≤ ATLAS_SIZE ∧ r.y ≤ p.cursor_y) ∧
  List.Pairwise disjointRect p.texture_uvs ∧
  p.cursor_y + 2 ≤ ATLAS_SIZE

/-- A font backend for concrete runs: every glyph is a 5 x 7 bitmap with
ymin 0 and advance width 10, there is no kerning and no line metrics (so the
line height falls back to the pixel size). -/
def uniformBackend : FontBackend :=
  { metricsFn := fun _ _ => ⟨5, 7, 0, 10⟩,
    rasterizeFn := fun _ _ => (⟨5, 7, 0, 10⟩, []),
    horizontal_kern := fun _ _ _ => none,
    horizontal_line_metrics := fun _ => none }

/-- The uniform backend with one kerning pair: kern between capital A and
capital V is -2. -/
def kernBackend : FontBackend :=
  { uniformBackend with
      horizontal_kern := fun prev ch _ =>
        if prev = 'A' ∧ ch = 'V' then some (-2) else none }

/-- A fresh font over the uniform backend. -/
def uniformFont : Font := ⟨uniformBackend, []⟩

/-- A fresh font over the kerning backend. -/
def kernFont : Font := ⟨kernBackend, []⟩

/-- A page holding one 4 x 4 region at the origin, with the cursor as
upload_texture leaves it. -/
def demoPage : TexturePage :=
  { cursor_x := 4, cursor_y := 0, line_height := 4, texture_uvs := [⟨0, 0, 4, 4⟩] }

/-- A graphics state whose atlas has two pages (so two distinct bind points
exist) and whose bound texture unit is 1. -/
def demoBound : Graphics :=
  { Graphics.new with atlas := ⟨[demoPage, demoPage]⟩, bound_texture := some 1 }

/-- Handle to the region on the first page (bind point 1). -/
def handleA : TextureHandle := ⟨0, 0⟩

/-- Handle to the region on the second page (bind point 2). -/
def handleB : TextureHandle := ⟨1, 0⟩

/-- The full local UV rect. -/
def fullUV : Rect := ⟨0, 0, 1, 1⟩

/-- The unit square draw region used in concrete pushes. -/
def unitRect : Rect := ⟨0, 0, 1, 1⟩

/-- The outcome of laying out the text of claim C4: the string
hello world at origin, size 12, with max_line_length 60 — exactly the
uniform-backend width of the five letters plus the space. -/
def demoLayout : Option (TextRenderer × Graphics × Font) :=
  TextRenderer.default.layout_text Graphics.new uniformFont 0 0
    ("hello world").toList 12 60

instance (a b : IRect) : Decidable (disjointRect a b) := by
  unfold disjointRect; infer_instance

instance (r : IRect) : Decidable (withinPage r) := by
  unfold withinPage; infer_instance

instance (l : List (ℕ × ℕ)) : Decidable (sizedForPage l) := by
  unfold sizedForPage; infer_instance

/-- The atlas produced by uploading one 512 x 512 bitmap into a fresh atlas. -/
def atlas512 : TextureAtlas :=
  ⟨[{ cursor_x := 512, cursor_y := 0, line_height := 512,
      texture_uvs := [⟨0, 0, 512, 512⟩] }]⟩

/-- The atlas produced from atlas512 by a second upload of size 2048 x 1,
which wraps to a new shelf at row 512 on the same page. -/
def atlasAfter2 : TextureAtlas :=
  ⟨[{ cursor_x := 2048, cursor_y := 512, line_height := 1,
      texture_uvs := [⟨0, 0, 512, 512⟩, ⟨0, 512, 2048, 1⟩] }]⟩

/-- The texture of the glyph for capital A at size 24 over the uniform
backend, uploaded into a fresh atlas. -/
def texA : Texture := ⟨⟨0, 0⟩, ⟨0, 0, 1, 1⟩, 5, 7⟩

/-- The graphics state after that upload. -/
def gAfterA : Graphics :=
  { Graphics.new with
      atlas := ⟨[{ cursor_x := 5, cursor_y := 0, line_height := 7,
                   texture_uvs := [⟨0, 0, 5, 7⟩] }]⟩ }

/-- The uniform font after caching the glyph for capital A at size 24. -/
def fontAfterA : Font :=
  { uniformFont with characters := [(('A', 24), (texA, ⟨5, 7, 0, 10⟩))] }

/-- A parent texture for sub-texture checks, occupying the UV quarter
rectangle of its page, as in the test in lib.rs. -/
def demoTex : Texture := ⟨⟨0, 0⟩, ⟨0, 0, 1/2, 1/2⟩, 192, 320⟩

/-- Claim C8: Texture.sub_texture fails its precondition check exactly when
x + width exceeds the parent width or y + height exceeds the parent height,
the boundary case of equality being accepted; and called with
(0, 0, parent.width, parent.height) on a parent of positive size it returns
a texture whose UV rect equals the parent UV rect. -/
theorem c8_sub_texture_bounds :
    (∀ (t : Texture) (x y width height : ℕ),
        t.sub_texture x y width height = none ↔
          (t.width < x + width ∨ t.height < y + height)) ∧
    (∀ t : Texture, 0 < t.width → 0 < t.height →
        ∃ t2, t.sub_texture 0 0 t.width t.height = some t2 ∧ t2.uv = t.uv) := by
  constructor
  · intro t x y w h
    unfold Texture.sub_texture
    by_cases hc : x + w ≤ t.width ∧ y + h ≤ t.height
    · rw [if_pos hc]
      simp only [reduceCtorEq, false_iff]
      omega
    · rw [if_neg hc]
      simp only [true_iff]
      omega
  · intro t hw hh
    have hwq : (t.width : ℚ) ≠ 0 := Nat.cast_ne_zero.mpr hw.ne'
    have hhq : (t.height : ℚ) ≠ 0 := Nat.cast_ne_zero.mpr hh.ne'
    unfold Texture.sub_texture
    rw [if_pos ⟨by omega, by omega⟩]
    refine ⟨_, rfl, ?_⟩
    show Rect.mk _ _ _ _ = t.uv
    rw [show t.uv = Rect.mk t.uv.x t.uv.y t.uv.width t.uv.height from rfl,
      Rect.mk.injEq]
    refine ⟨?_, ?_, ?_, ?_⟩
    · simp
    · simp
    · rw [div_self hwq, one_mul]
    · rw [div_self hhq, one_mul]

/-- Witness for C8 at a concrete parent texture of size 192 x 320. -/
theorem c8_witness :
    0 < demoTex.width ∧ 0 < demoTex.height ∧
    ∃ t2, demoTex.sub_texture 0 0 demoTex.width demoTex.height = some t2 ∧
      t2.uv = demoTex.uv :=
  ⟨by decide, by decide,
   c8_sub_texture_bounds.2 demoTex (by decide) (by decide)⟩

/-- Inner fold of Font.text_width: the previous-character component is
carried unchanged, so the accumulated width is the start value plus the sum
of the advance widths. -/
theorem text_width_fold (f : Font) (size : ℕ) :
    ∀ (text : List Char) (acc : ℚ),
      (text.foldl
        (fun acc ch =>
          let width := acc.1
          let prev_ch : Option Char := acc.2
          let width :=
            match prev_ch with
            | some prev =>
              match f.font.horizontal_kern prev ch size with
              | some kern => width + kern
              | none => width
            | none => width
          (width + (f.metrics ch size).advance_width, prev_ch))
        (acc, (none : Option Char))).1 =
      acc + (text.map fun ch => (f.metrics ch size).advance_width).sum := by
  intro text
  induction text with
  | nil => intro acc; simp
  | cons ch rest ih =>
    intro acc
    simp only [List.foldl_cons, List.map_cons, List.sum_cons]
    rw [ih]
    ring

/-- Claim C3: the claim does not hold — Font.text_width returns only the sum
of the advance widths for every font and string, because prev_ch is bound to
None once and never updated, so the kerning branch is dead; concretely, over
a backend that reports kerning -2 for the pair A V with advance width 10 per
glyph, the width of the string AV comes out as 20, not 18. -/
theorem c3_text_width_ignores_kerning :
    (∀ (f : Font) (text : List Char) (size : ℕ),
        f.text_width text size =
          (text.map fun ch => (f.metrics ch size).advance_width).sum) ∧
    kernFont.text_width ("AV").toList 12 = 20 ∧
    kernBackend.horizontal_kern 'A' 'V' 12 = some (-2) := by
  have hgen : ∀ (f : Font) (text : List Char) (size : ℕ),
      f.text_width text size =
        (text.map fun ch => (f.metrics ch size).advance_width).sum := by
    intro f text size
    unfold Font.text_width
    rw [text_width_fold]
    ring
  refine ⟨hgen, ?_, rfl⟩
  rw [hgen, show ("AV").toList = ['A', 'V'] from rfl]
  norm_num [Font.metrics, cacheLookup, kernFont, kernBackend, uniformBackend]

/-- Claim C4: the claim does not hold at end of input — laying out the text
hello world at the origin with size 12 and max_line_length 60 over the
uniform backend (advance width 10, so 60 is exactly the width of the word
hello plus the space) leaves the final word on the first line starting at
x = 60: the final drain of the word buffer performs no wrap check. Every
glyph stays on the top line (vertical position 5 = 0 + (12 - 7) - 0). -/
theorem c4_last_word_never_wraps :
    (demoLayout.map fun out =>
        out.1.character_buffer.map fun gl => (gl.2.1, gl.2.2.1, gl.2.2.2)) =
      some [('h', 0, 5), ('e', 10, 5), ('l', 20, 5), ('l', 30, 5), ('o', 40, 5),
            (' ', 50, 5), ('w', 60, 5), ('o', 70, 5), ('r', 80, 5), ('l', 90, 5),
            ('d', 100, 5)] := by
  rw [show demoLayout = TextRenderer.default.layout_text Graphics.new uniformFont 0 0
    ['h', 'e', 'l', 'l', 'o', ' ', 'w', 'o', 'r', 'l', 'd'] 12 60 from rfl]
  norm_num +decide [TextRenderer.layout_text, TextRenderer.default, layoutLoop,
    layoutStep, emitChars, pushCharacter, Font.rasterize, Font.text_width,
    Font.metrics, Font.line_height, cacheLookup, uniformFont, uniformBackend,
    Graphics.new, Graphics.new_texture_from_bytes, TextureAtlas.new,
    TextureAtlas.upload_image, tryPages, TexturePage.new,
    TexturePage.upload_texture, TexturePage.place, ATLAS_SIZE,
    Char.isWhitespace, List.foldl]

/-- Shape of a successful upload_texture: one region of the requested size
is appended to the region list, and the returned index is its position. -/
theorem upload_texture_shape {p p2 : TexturePage} {w h i : ℕ}
    (hu : p.upload_texture w h = some (p2, i)) :
    ∃ px py, p2.texture_uvs = p.texture_uvs ++ [⟨px, py, w, h⟩] ∧
      i = p.texture_uvs.length := by
  unfold TexturePage.upload_texture at hu
  split at hu
  · split at hu
    · exact absurd hu (by simp)
    · simp only [Option.some.injEq] at hu
      have h1 := congrArg Prod.fst hu
      have h2 := congrArg Prod.snd hu
      simp only at h1 h2
      exact ⟨_, _, by rw [← h1]; rfl, by rw [← h2]; rfl⟩
  · simp only [Option.some.injEq] at hu
    have h1 := congrArg Prod.fst hu
    have h2 := congrArg Prod.snd hu
    simp only at h1 h2
    exact ⟨_, _, by rw [← h1]; rfl, by rw [← h2]; rfl⟩

/-- Regions recorded before a successful upload_texture are still found at
the same index afterwards. -/
theorem upload_texture_get_old {p p2 : TexturePage} {w h i : ℕ}
    (hu : p.upload_texture w h = some (p2, i)) {j : ℕ} {r : IRect}
    (hj : p.texture_uvs[j]? = some r) : p2.texture_uvs[j]? = some r := by
  obtain ⟨px, py, hsh, _⟩ := upload_texture_shape hu
  rw [hsh, List.getElem?_append_left (List.getElem?_eq_some.mp hj).1]
  exact hj

/-- The region recorded by a successful upload_texture is found at the
returned index and has the uploaded width and height. -/
theorem upload_texture_get_new {p p2 : TexturePage} {w h i : ℕ}
    (hu : p.upload_texture w h = some (p2, i)) :
    ∃ px py, p2.texture_uvs[i]? = some ⟨px, py, w, h⟩ := by
  obtain ⟨px, py, hsh, hi⟩ := upload_texture_shape hu
  subst hi
  rw [hsh]
  exact ⟨px, py, List.getElem?_concat_length _ _⟩

/-- Specification of the page loop of upload_image: a success updates
exactly one page, the first that accepts the bitmap, in place. -/
theorem tryPages_spec {w h : ℕ} :
    ∀ {pages pages2 : List TexturePage} {pi idx : ℕ},
      tryPages w h pages = some (pages2, pi, idx) →
      ∃ p p2, pages[pi]? = some p ∧ p.upload_texture w h = some (p2, idx) ∧
        pages2 = pages.set pi p2 := by
  intro pages
  induction pages with
  | nil => intro pages2 pi idx hc; exact absurd hc (by simp [tryPages])
  | cons p rest ih =>
    intro pages2 pi idx hc
    unfold tryPages at hc
    split at hc
    next p2 index heq =>
      simp only [Option.some.injEq, Prod.mk.injEq] at hc
      obtain ⟨h1, h2, h3⟩ := hc
      subst h1; subst h2; subst h3
      exact ⟨p, p2, by simp, heq, rfl⟩
    next heq =>
      rcases Option.map_eq_some'.mp hc with ⟨⟨rest2, pi2, idx2⟩, hr, heq2⟩
      simp only [Prod.mk.injEq] at heq2
      obtain ⟨h1, h2, h3⟩ := heq2
      subst h1; subst h2; subst h3
      obtain ⟨q, q2, hq, hup2, hset⟩ := ih hr
      exact ⟨q, q2, by simpa using hq, hup2, by rw [hset]; rfl⟩

/-- Specification of upload_image: either an existing page absorbed the
bitmap and was updated in place, or all pages rejected it and a fresh page
holding it was appended. -/
theorem upload_image_spec {a a2 : TextureAtlas} {w h : ℕ} {t : TextureHandle}
    (hu : a.upload_image w h = some (a2, t)) :
    (∃ p p2, a.pages[t.atlas]? = some p ∧
        p.upload_texture w h = some (p2, t.index) ∧
        a2.pages = a.pages.set t.atlas p2) ∨
    (∃ page, TexturePage.new.upload_texture w h = some (page, t.index) ∧
        t.atlas = a.pages.length ∧ a2.pages = a.pages ++ [page]) := by
  unfold TextureAtlas.upload_image at hu
  split at hu
  next pages2 pi idx heq =>
    simp only [Option.some.injEq, Prod.mk.injEq] at hu
    obtain ⟨h1, h2⟩ := hu
    subst h1; subst h2
    exact Or.inl (tryPages_spec heq)
  next =>
    split at hu
    · exact absurd hu (by simp)
    next page idx heq =>
      simp only [Option.some.injEq, Prod.mk.injEq] at hu
      obtain ⟨h1, h2⟩ := hu
      subst h1; subst h2
      exact Or.inr ⟨page, heq, rfl, rfl⟩

/-- Claim C7: upload_image leaves the page count unchanged or grows it by
exactly one, and every handle that resolved to a region before the call
resolves to the same region afterwards — pages are never removed or
reordered and recorded regions are never modified. -/
theorem c7_upload_image_append_only :
    ∀ (a : TextureAtlas) (w h : ℕ) (a2 : TextureAtlas) (t : TextureHandle),
      a.upload_image w h = some (a2, t) →
      (a2.pages.length = a.pages.length ∨
        a2.pages.length = a.pages.length + 1) ∧
      ∀ (t0 : TextureHandle) (r : IRect),
        a.resolve t0 = some r → a2.resolve t0 = some r := by
  intro a w h a2 t hu
  rcases upload_image_spec hu with ⟨p, p2, hp, hup, hpages⟩ |
    ⟨page, hup, hatlas, hpages⟩
  · refine ⟨Or.inl (by rw [hpages, List.length_set]), ?_⟩
    intro t0 r hr
    unfold TextureAtlas.resolve at hr ⊢
    rcases Option.bind_eq_some.mp hr with ⟨p0, hp0, hr0⟩
    by_cases hidx : t0.atlas = t.atlas
    · rw [hidx] at hp0
      rw [hp] at hp0
      injection hp0 with hp0
      subst hp0
      have hlt : t.atlas < a.pages.length := (List.getElem?_eq_some.mp hp).1
      rw [hpages, hidx, List.getElem?_set_eq_of_lt p2 hlt]
      exact Option.bind_eq_some.mpr ⟨p2, rfl, upload_texture_get_old hup hr0⟩
    · rw [hpages, List.getElem?_set_ne (fun hx => hidx hx.symm)]
      exact Option.bind_eq_some.mpr ⟨p0, hp0, hr0⟩
  · refine ⟨Or.inr (by rw [hpages, List.length_append]; rfl), ?_⟩
    intro t0 r hr
    unfold TextureAtlas.resolve at hr ⊢
    rcases Option.bind_eq_some.mp hr with ⟨p0, hp0, hr0⟩
    rw [hpages, List.getElem?_append_left (List.getElem?_eq_some.mp hp0).1]
    exact Option.bind_eq_some.mpr ⟨p0, hp0, hr0⟩

/-- Witness for C7: a second upload, which wraps to a fresh shelf on the
same page, keeps the page count at one and leaves the handle of the first
bitmap resolving to its original 512 x 512 region at the origin. -/
theorem c7_witness :
    (atlasAfter2.pages.length = atlas512.pages.length ∨
      atlasAfter2.pages.length = atlas512.pages.length + 1) ∧
    ∀ (t0 : TextureHandle) (r : IRect),
      atlas512.resolve t0 = some r → atlasAfter2.resolve t0 = some r :=
  c7_upload_image_append_only atlas512 2048 1 atlasAfter2 ⟨0, 1⟩ (by decide)

/-- Resolution of the handle returned by upload_image: it points at a
region whose width and height are the uploaded ones. -/
theorem upload_image_resolve {a a2 : TextureAtlas} {w h : ℕ} {t : TextureHandle}
    (hu : a.upload_image w h = some (a2, t)) :
    ∃ px py, a2.resolve t = some ⟨px, py, w, h⟩ := by
  rcases upload_image_spec hu with ⟨p, p2, hp, hup, hpages⟩ |
    ⟨page, hup, hatlas, hpages⟩
  · obtain ⟨px, py, hnew⟩ := upload_texture_get_new hup
    have hlt : t.atlas < a.pages.length := (List.getElem?_eq_some.mp hp).1
    refine ⟨px, py, ?_⟩
    unfold TextureAtlas.resolve
    rw [hpages, List.getElem?_set_eq_of_lt p2 hlt]
    exact Option.bind_eq_some.mpr ⟨p2, rfl, hnew⟩
  · obtain ⟨px, py, hnew⟩ := upload_texture_get_new hup
    refine ⟨px, py, ?_⟩
    unfold TextureAtlas.resolve
    rw [hpages, hatlas, List.getElem?_concat_length]
    exact Option.bind_eq_some.mpr ⟨page, rfl, hnew⟩

/-- Claim C5 as amended: for a bitmap of positive size (w, h) uploaded to
the atlas, the uv of its handle at local rect (0,0,1,1) has size
(1/w, 1/h) — the local UV size divided componentwise by the region size in
texels, not bitmapSize / PAGE_SIZE — and the uv at local rect
(0,0,1/2,1/2) has exactly half the width and half the height of that. -/
theorem c5_amended_uv_sizes :
    ∀ (a : TextureAtlas) (w h : ℕ) (a2 : TextureAtlas) (t : TextureHandle),
      a.upload_image w h = some (a2, t) → 1 ≤ w → 1 ≤ h →
      ∃ full half, a2.uv t ⟨0, 0, 1, 1⟩ = some full ∧
        a2.uv t ⟨0, 0, 1/2, 1/2⟩ = some half ∧
        full.width = 1 / (w : ℚ) ∧ full.height = 1 / (h : ℚ) ∧
        half.width = full.width / 2 ∧ half.height = full.height / 2 := by
  intro a w h a2 t hu hw hh
  obtain ⟨px, py, hres⟩ := upload_image_resolve hu
  unfold TextureAtlas.uv
  rw [hres]
  refine ⟨_, _, rfl, rfl, rfl, rfl, ?_, ?_⟩
  · show (1 / 2 : ℚ) / (w : ℚ) = 1 / (w : ℚ) / 2
    rw [div_div, div_div, mul_comm]
  · show (1 / 2 : ℚ) / (h : ℚ) = 1 / (h : ℚ) / 2
    rw [div_div, div_div, mul_comm]

/-- Counterexample to C5 as stated: uploading a 512 x 512 bitmap into a
fresh atlas and querying the full local UV rect returns a rect of width and
height 1/512, which is not 512/2048 = bitmapSize / PAGE_SIZE. -/
theorem c5_counterexample :
    TextureAtlas.new.upload_image 512 512 = some (atlas512, ⟨0, 0⟩) ∧
    atlas512.uv ⟨0, 0⟩ ⟨0, 0, 1, 1⟩ = some ⟨0, 0, 1/512, 1/512⟩ ∧
    ((1 : ℚ)/512) ≠ 512/2048 := by
  refine ⟨by decide, ?_, by norm_num⟩
  norm_num [TextureAtlas.uv, TextureAtlas.resolve, atlas512, ATLAS_SIZE]

/-- Witness for C5 as amended, at the same concrete 512 x 512 upload. -/
theorem c5_witness :
    ∃ full half, atlas512.uv ⟨0, 0⟩ ⟨0, 0, 1, 1⟩ = some full ∧
      atlas512.uv ⟨0, 0⟩ ⟨0, 0, 1/2, 1/2⟩ = some half ∧
      full.width = 1 / ((512 : ℕ) : ℚ) ∧ full.height = 1 / ((512 : ℕ) : ℚ) ∧
      half.width = full.width / 2 ∧ half.height = full.height / 2 :=
  c5_amended_uv_sizes TextureAtlas.new 512 512 atlas512 ⟨0, 0⟩ (by decide)
    (by decide) (by decide)

/-- The fresh page satisfies the packing invariant. -/
theorem pageInv_new : pageInv TexturePage.new := by
  refine ⟨?_, ?_, ?_⟩
  · intro r hr; exact absurd hr (by simp [TexturePage.new])
  · simp [TexturePage.new]
  · simp [TexturePage.new, ATLAS_SIZE]

/-- Placing a bitmap at the cursor preserves the packing invariant, as long
as the right edge of the new region stays inside the page. -/
theorem place_inv {p : TexturePage} {w h : ℕ} (hp : pageInv p)
    (hx : p.cursor_x + w ≤ ATLAS_SIZE) : pageInv (p.place w h).1 := by
  obtain ⟨hreg, hpair, hcy⟩ := hp
  dsimp [TexturePage.place]
  refine ⟨?_, ?_, hcy⟩
  · intro r hr
    rcases List.mem_append.mp hr with hr | hr
    · obtain ⟨hsh, hxw, hy⟩ := hreg r hr
      refine ⟨?_, hxw, hy⟩
      rcases hsh with h1 | ⟨h2a, h2b, h2c⟩
      · exact Or.inl h1
      · exact Or.inr ⟨h2a, le_trans h2b (le_max_left _ _),
          le_trans h2c (Nat.le_add_right _ _)⟩
    · rw [List.mem_singleton] at hr
      subst hr
      exact ⟨Or.inr ⟨rfl, le_max_right _ _, le_refl _⟩, hx, le_refl _⟩
  · rw [List.pairwise_append]
    refine ⟨hpair, List.pairwise_singleton _ _, ?_⟩
    intro r hr b hb
    rw [List.mem_singleton] at hb
    subst hb
    obtain ⟨hsh, _, _⟩ := hreg r hr
    rcases hsh with h1 | ⟨_, _, h2c⟩
    · exact Or.inr (Or.inr (Or.inl h1))
    · exact Or.inl h2c

/-- Opening a new shelf preserves the packing invariant when the wrap check
passes (the new shelf plus the incoming bitmap stay strictly above the page
bottom) and the bitmap height is positive. -/
theorem wrap_inv {p : TexturePage} {h : ℕ} (hp : pageInv p) (hh : 1 ≤ h)
    (hbound : p.cursor_y + p.line_height + h + 1 ≤ ATLAS_SIZE) :
    pageInv { p with cursor_y := p.cursor_y + p.line_height,
                     cursor_x := 0, line_height := 0 } := by
  obtain ⟨hreg, hpair, hcy⟩ := hp
  refine ⟨?_, hpair, ?_⟩
  · intro r hr
    obtain ⟨hsh, hxw, hy⟩ := hreg r hr
    have hbot : r.y + r.height ≤ p.cursor_y + p.line_height := by
      rcases hsh with h1 | ⟨h2a, h2b, _⟩
      · omega
      · omega
    refine ⟨Or.inl hbot, hxw, ?_⟩
    show r.y ≤ p.cursor_y + p.line_height
    omega
  · show p.cursor_y + p.line_height + 2 ≤ ATLAS_SIZE
    omega

/-- A successful upload_texture preserves the packing invariant for bitmaps
of width at most the page and positive height. -/
theorem upload_texture_inv {p p2 : TexturePage} {w h i : ℕ} (hp : pageInv p)
    (hw : w ≤ ATLAS_SIZE) (hh : 1 ≤ h)
    (hu : p.upload_texture w h = some (p2, i)) : pageInv p2 := by
  unfold TexturePage.upload_texture at hu
  split at hu
  next hge =>
    split at hu
    next => exact absurd hu (by simp)
    next hlt =>
      simp only [Option.some.injEq] at hu
      have h1 := congrArg Prod.fst hu
      simp only at h1
      rw [← h1]
      exact place_inv (wrap_inv hp hh (by omega)) (by simpa using hw)
  next hlt =>
    simp only [Option.some.injEq] at hu
    have h1 := congrArg Prod.fst hu
    simp only at h1
    rw [← h1]
    exact place_inv hp (by omega)

/-- Running any sequence of page-sized uploads from an invariant page keeps
the invariant (rejected uploads leave the page untouched). -/
theorem uploadRun_inv :
    ∀ (l : List (ℕ × ℕ)) (p : TexturePage), pageInv p → sizedForPage l →
      pageInv (uploadRun p l) := by
  intro l
  induction l with
  | nil => intro p hp _; exact hp
  | cons wh rest ih =>
    intro p hp hs
    have hwh := hs wh (List.mem_cons_self wh rest)
    have hrest : sizedForPage rest := fun x hx => hs x (List.mem_cons_of_mem _ hx)
    rw [uploadRun]
    cases hu : p.upload_texture wh.1 wh.2 with
    | none => simp only [hu]; exact ih p hp hrest
    | some r =>
      simp only [hu]
      exact ih r.1 (upload_texture_inv hp hwh.2.1 hwh.2.2.1 hu) hrest

/-- Claim C1 as amended: for every sequence of bitmaps with positive sizes
no larger than the page, the regions recorded by upload_texture pairwise do
not overlap, and every region stays inside the page horizontally (right
edge at or before column 2048) and starts strictly above the page bottom
(top edge below row 2048); the bottom edge, however, is not bounded — see
the counterexample, where a region ends at row 2058. -/
theorem c1_amended_packing :
    ∀ l : List (ℕ × ℕ), sizedForPage l →
      List.Pairwise disjointRect (uploadRun TexturePage.new l).texture_uvs ∧
      ∀ r ∈ (uploadRun TexturePage.new l).texture_uvs,
        r.x + r.width ≤ ATLAS_SIZE ∧ r.y < ATLAS_SIZE := by
  intro l hs
  obtain ⟨hreg, hpair, hcy⟩ := uploadRun_inv l TexturePage.new pageInv_new hs
  refine ⟨hpair, fun r hr => ⟨(hreg r hr).2.1, ?_⟩⟩
  have := (hreg r hr).2.2
  unfold ATLAS_SIZE at hcy ⊢
  omega

/-- Counterexample to C1 as stated: the sizes 2040 x 10, 10 x 10 and
10 x 2048 are all positive and within the page, yet the third recorded
region is placed at (10, 10) with height 2048, so its bottom edge reaches
row 2058, outside the page square — the no-wrap path of upload_texture
performs no vertical bound check. -/
theorem c1_counterexample :
    sizedForPage [(2040, 10), (10, 10), (10, 2048)] ∧
    (uploadRun TexturePage.new [(2040, 10), (10, 10), (10, 2048)]).texture_uvs[2]? =
      some ⟨10, 10, 10, 2048⟩ ∧
    ¬ withinPage ⟨10, 10, 10, 2048⟩ := by
  decide

/-- Witness for C1 as amended at a concrete two-upload sequence. -/
theorem c1_witness :
    List.Pairwise disjointRect (uploadRun TexturePage.new [(1, 1), (2, 2)]).texture_uvs ∧
    ∀ r ∈ (uploadRun TexturePage.new [(1, 1), (2, 2)]).texture_uvs,
      r.x + r.width ≤ ATLAS_SIZE ∧ r.y < ATLAS_SIZE :=
  c1_amended_packing [(1, 1), (2, 2)] (by decide)

/-- Appending the rectangle geometry touches only the vertex data, index
data and vertex count. -/
theorem push_rect_vertices_fields (g : Graphics) (region : Rect) (color : Color)
    (uv : Rect) :
    (g.push_rect_vertices region color uv).bound_texture = g.bound_texture ∧
    (g.push_rect_vertices region color uv).atlas = g.atlas ∧
    (g.push_rect_vertices region color uv).projection = g.projection :=
  ⟨rfl, rfl, rfl⟩

/-- Appending the rectangle geometry extends the vertex data by exactly the
32 floats of the four corner vertices. -/
theorem push_rect_vertices_data (g : Graphics) (region : Rect) (color : Color)
    (uv : Rect) :
    (g.push_rect_vertices region color uv).vertex_data =
      g.vertex_data ++
        ([color.r, color.g, color.b, color.a, region.x, region.y, uv.x, uv.y] ++
         ([color.r, color.g, color.b, color.a, region.x + region.width,
           region.y, uv.x + uv.width, uv.y] ++
          ([color.r, color.g, color.b, color.a, region.x + region.width,
            region.y + region.height, uv.x + uv.width, uv.y + uv.height] ++
           [color.r, color.g, color.b, color.a, region.x,
            region.y + region.height, uv.x, uv.y + uv.height]))) := by
  dsimp only [Graphics.push_rect_vertices, Graphics.push_vertex]
  rw [List.append_assoc, List.append_assoc, List.append_assoc]

/-- Characterization of a successful textured push_rect: the number of flush
invocations is 1 exactly when a different unit was bound, the bind point of
the pushed texture ends up bound, and the new geometry is appended after the
flush (if one happened) — the final vertex data extends that of the flushed
state. -/
theorem push_rect_textured_spec {g : Graphics} {region : Rect} {color : Color}
    {t : TextureHandle} {uvl : Rect} {g2 : Graphics} {n : ℕ}
    (hu : g.push_rect region color (some (t, uvl)) = some (g2, n)) :
    n = (match g.bound_texture with
         | some cur => if t.bind_point ≠ cur then 1 else 0
         | none => 0) ∧
    g2.bound_texture = some t.bind_point ∧
    ∃ vs, g2.vertex_data =
      (match g.bound_texture with
       | some cur => if t.bind_point ≠ cur then (g.flush).vertex_data
                     else g.vertex_data
       | none => g.vertex_data) ++ vs := by
  unfold Graphics.push_rect at hu
  cases hb : g.bound_texture with
  | none =>
    rw [hb] at hu
    dsimp only at hu
    rcases Option.map_eq_some'.mp hu with ⟨uv, huv, heq⟩
    have h1 := congrArg Prod.fst heq
    have h2 := congrArg Prod.snd heq
    dsimp only at h1 h2
    dsimp only
    refine ⟨h2.symm, ?_, ?_⟩
    · rw [← h1]
      exact (push_rect_vertices_fields _ _ _ _).1
    · have hvs := push_rect_vertices_data
        { g with bound_texture := some t.bind_point } region color uv
      rw [h1] at hvs
      exact ⟨_, hvs⟩
  | some cur =>
    rw [hb] at hu
    dsimp only at hu
    by_cases hne : t.bind_point ≠ cur
    · rw [if_pos hne] at hu
      dsimp only at hu
      rcases Option.map_eq_some'.mp hu with ⟨uv, huv, heq⟩
      have h1 := congrArg Prod.fst heq
      have h2 := congrArg Prod.snd heq
      dsimp only at h1 h2
      dsimp only
      refine ⟨?_, ?_, ?_⟩
      · rw [if_pos hne]
        exact h2.symm
      · rw [← h1]
        exact (push_rect_vertices_fields _ _ _ _).1
      · rw [if_pos hne]
        have hvs := push_rect_vertices_data
          { g.flush with bound_texture := some t.bind_point } region color uv
        rw [h1] at hvs
        exact ⟨_, hvs⟩
    · rw [if_neg hne] at hu
      dsimp only at hu
      rcases Option.map_eq_some'.mp hu with ⟨uv, huv, heq⟩
      have h1 := congrArg Prod.fst heq
      have h2 := congrArg Prod.snd heq
      dsimp only at h1 h2
      dsimp only
      refine ⟨?_, ?_, ?_⟩
      · rw [if_neg hne]
        exact h2.symm
      · rw [← h1]
        exact (push_rect_vertices_fields _ _ _ _).1
      · rw [if_neg hne]
        have hvs := push_rect_vertices_data
          { g with bound_texture := some t.bind_point } region color uv
        rw [h1] at hvs
        exact ⟨_, hvs⟩

/-- An untextured push_rect succeeds, invokes no flush and leaves the bound
texture unit unchanged. -/
theorem push_rect_untextured_spec (g : Graphics) (region : Rect) (color : Color) :
    g.push_rect region color none =
      some (g.push_rect_vertices region color ⟨-1, -1, 0, 0⟩, 0) := rfl

/-- Claim C2: a push_rect whose texture binds a unit different from the
currently bound one invokes flush exactly once, before appending its
vertices (the resulting vertex data extends the flushed data); a push_rect
with the currently bound unit, or with no texture, invokes no flush and
appends after the existing data; pushing a rect on unit A then one on unit
B gives exactly one intermediate flush, while two consecutive pushes on one
unit give none. -/
theorem c2_push_rect_flush_policy :
    (∀ (g : Graphics) (region : Rect) (color : Color) (t : TextureHandle)
        (uvl : Rect) (cur : ℕ) (g2 : Graphics) (n : ℕ),
        g.bound_texture = some cur → t.bind_point ≠ cur →
        g.push_rect region color (some (t, uvl)) = some (g2, n) →
        n = 1 ∧ ∃ vs, g2.vertex_data = (g.flush).vertex_data ++ vs) ∧
    (∀ (g : Graphics) (region : Rect) (color : Color) (t : TextureHandle)
        (uvl : Rect) (g2 : Graphics) (n : ℕ),
        (∀ cur, g.bound_texture = some cur → t.bind_point = cur) →
        g.push_rect region color (some (t, uvl)) = some (g2, n) →
        n = 0 ∧ ∃ vs, g2.vertex_data = g.vertex_data ++ vs) ∧
    (∀ (g : Graphics) (region : Rect) (color : Color) (g2 : Graphics) (n : ℕ),
        g.push_rect region color none = some (g2, n) →
        n = 0 ∧ ∃ vs, g2.vertex_data = g.vertex_data ++ vs) ∧
    (∀ (g : Graphics) (r1 r2 : Rect) (c1 c2 : Color) (tA tB : TextureHandle)
        (uA uB : Rect) (g1 g2 : Graphics) (n1 n2 : ℕ),
        g.push_rect r1 c1 (some (tA, uA)) = some (g1, n1) →
        g1.push_rect r2 c2 (some (tB, uB)) = some (g2, n2) →
        (tB.bind_point ≠ tA.bind_point → n2 = 1) ∧
        (tB.bind_point = tA.bind_point → n2 = 0)) := by
  have hdiff : ∀ (g : Graphics) (region : Rect) (color : Color) (t : TextureHandle)
      (uvl : Rect) (cur : ℕ) (g2 : Graphics) (n : ℕ),
      g.bound_texture = some cur → t.bind_point ≠ cur →
      g.push_rect region color (some (t, uvl)) = some (g2, n) →
      n = 1 ∧ ∃ vs, g2.vertex_data = (g.flush).vertex_data ++ vs := by
    intro g region color t uvl cur g2 n hb hne hu
    obtain ⟨hn, _, hvs⟩ := push_rect_textured_spec hu
    rw [hb] at hn hvs
    dsimp only at hn hvs
    rw [if_pos hne] at hn hvs
    exact ⟨hn, hvs⟩
  have hsame : ∀ (g : Graphics) (region : Rect) (color : Color) (t : TextureHandle)
      (uvl : Rect) (g2 : Graphics) (n : ℕ),
      (∀ cur, g.bound_texture = some cur → t.bind_point = cur) →
      g.push_rect region color (some (t, uvl)) = some (g2, n) →
      n = 0 ∧ ∃ vs, g2.vertex_data = g.vertex_data ++ vs := by
    intro g region color t uvl g2 n hb hu
    obtain ⟨hn, _, hvs⟩ := push_rect_textured_spec hu
    cases hc : g.bound_texture with
    | none =>
      rw [hc] at hn hvs
      exact ⟨hn, hvs⟩
    | some cur =>
      rw [hc] at hn hvs
      dsimp only at hn hvs
      have heq := hb cur hc
      rw [if_neg (not_not_intro heq)] at hn hvs
      exact ⟨hn, hvs⟩
  refine ⟨hdiff, hsame, ?_, ?_⟩
  · intro g region color g2 n hu
    rw [push_rect_untextured_spec] at hu
    simp only [Option.some.injEq, Prod.mk.injEq] at hu
    obtain ⟨h1, h2⟩ := hu
    refine ⟨h2.symm, ?_⟩
    have hvs := push_rect_vertices_data g region color ⟨-1, -1, 0, 0⟩
    rw [h1] at hvs
    exact ⟨_, hvs⟩
  · intro g r1 r2 c1 c2 tA tB uA uB g1 g2 n1 n2 hu1 hu2
    have hb1 : g1.bound_texture = some tA.bind_point :=
      (push_rect_textured_spec hu1).2.1
    constructor
    · intro hne
      exact (hdiff g1 r2 c2 tB uB tA.bind_point g2 n2 hb1 hne hu2).1
    · intro heq
      refine (hsame g1 r2 c2 tB uB g2 n2 ?_ hu2).1
      intro cur hc
      rw [hb1] at hc
      injection hc with hc
      rw [heq, hc]

/-- Witness for C2 at a concrete graphics state with unit 1 bound: pushing a
texture living on the second atlas page (bind point 2) flushes once. -/
theorem c2_witness :
    demoBound.bound_texture = some 1 ∧ handleB.bind_point ≠ 1 ∧
    ∃ p, demoBound.push_rect unitRect Color.WHITE (some (handleB, fullUV)) = some p ∧
      p.2 = 1 := by
  refine ⟨rfl, by decide, ?_⟩
  have hs : (demoBound.push_rect unitRect Color.WHITE (some (handleB, fullUV))).isSome =
      true := rfl
  obtain ⟨p, hp⟩ := Option.isSome_iff_exists.mp hs
  refine ⟨p, hp, ?_⟩
  exact (c2_push_rect_flush_policy.1 demoBound unitRect Color.WHITE handleB fullUV 1
    p.1 p.2 rfl (by decide) (by rw [hp])).1

/-- Claim C9: flush is the identity when no vertices are pending, and
otherwise clears exactly the vertex data, index data and vertex count; the
bound texture unit, the atlas and the projection uniform survive it, and a
textured push_rect right after a flush whose bind point equals the unit
bound before the flush invokes no further flush. -/
theorem c9_flush_effect :
    (∀ g : Graphics, g.vertices = 0 → g.flush = g) ∧
    (∀ g : Graphics, g.vertices ≠ 0 →
        g.flush = { g with vertex_data := [], index_data := [], vertices := 0 }) ∧
    (∀ g : Graphics, (g.flush).bound_texture = g.bound_texture ∧
        (g.flush).atlas = g.atlas ∧ (g.flush).projection = g.projection) ∧
    (∀ (g : Graphics) (region : Rect) (color : Color) (t : TextureHandle)
        (uvl : Rect) (u : ℕ) (g2 : Graphics) (n : ℕ),
        g.bound_texture = some u → t.bind_point = u →
        (g.flush).push_rect region color (some (t, uvl)) = some (g2, n) → n = 0) := by
  have hkeep : ∀ g : Graphics, (g.flush).bound_texture = g.bound_texture ∧
      (g.flush).atlas = g.atlas ∧ (g.flush).projection = g.projection := by
    intro g
    unfold Graphics.flush
    by_cases hv : g.vertices = 0
    · rw [if_pos hv]; exact ⟨rfl, rfl, rfl⟩
    · rw [if_neg hv]; exact ⟨rfl, rfl, rfl⟩
  refine ⟨?_, ?_, hkeep, ?_⟩
  · intro g hv; unfold Graphics.flush; rw [if_pos hv]
  · intro g hv; unfold Graphics.flush; rw [if_neg hv]
  · intro g region color t uvl u g2 n hb heq hu
    have := (push_rect_textured_spec hu).1
    rw [(hkeep g).1, hb] at this
    dsimp only at this
    rw [if_neg (not_not_intro heq)] at this
    exact this

/-- Witness for C9 at the same concrete state: after a flush, pushing a
texture from the first atlas page (bind point 1, the unit bound before the
flush) invokes no flush. -/
theorem c9_witness :
    demoBound.bound_texture = some 1 ∧ handleA.bind_point = 1 ∧
    ∃ p, (demoBound.flush).push_rect unitRect Color.WHITE (some (handleA, fullUV)) =
        some p ∧ p.2 = 0 := by
  refine ⟨rfl, by decide, ?_⟩
  have hs : ((demoBound.flush).push_rect unitRect Color.WHITE
      (some (handleA, fullUV))).isSome = true := rfl
  obtain ⟨p, hp⟩ := Option.isSome_iff_exists.mp hs
  refine ⟨p, hp, ?_⟩
  exact (c9_flush_effect).2.2.2 demoBound unitRect Color.WHITE handleA fullUV 1
    p.1 p.2 rfl (by decide) (by rw [hp])

/-- A cache hit in rasterize returns the stored entry and changes nothing. -/
theorem rasterize_hit {f : Font} {ch : Char} {size : ℕ} {t : Texture}
    {m : Metrics} {g : Graphics}
    (hl : cacheLookup f.characters (ch, size) = some (t, m)) :
    f.rasterize ch size g = some (f, g, t, m) := by
  unfold Font.rasterize
  rw [hl]

/-- Claim C6: a second rasterize call with the same character and size right
after a first successful one returns the identical texture (handle and UV)
and metrics and leaves the font cache and the graphics state — in
particular the atlas pages and their regions — completely unchanged. -/
theorem c6_rasterize_idempotent :
    ∀ (f : Font) (ch : Char) (size : ℕ) (g : Graphics) (f2 : Font)
      (g2 : Graphics) (t : Texture) (m : Metrics),
      f.rasterize ch size g = some (f2, g2, t, m) →
      f2.rasterize ch size g2 = some (f2, g2, t, m) := by
  intro f ch size g f2 g2 t m h
  unfold Font.rasterize at h
  split at h
  next tm hc =>
    simp only [Option.some.injEq, Prod.mk.injEq] at h
    obtain ⟨h1, h2, h3, h4⟩ := h
    subst h1
    subst h2
    subst h3
    subst h4
    apply rasterize_hit
    rw [hc]
  next hc =>
    dsimp only at h
    split at h
    next => exact absurd h (by simp)
    next g3 handle hn =>
      simp only [Option.some.injEq, Prod.mk.injEq] at h
      obtain ⟨h1, h2, h3, h4⟩ := h
      subst h1
      subst h2
      subst h3
      subst h4
      apply rasterize_hit
      unfold cacheLookup
      rw [if_pos rfl]

/-- Witness for C6: rasterizing capital A at size 24 on a fresh font and
fresh graphics state and then rasterizing it again returns the same entry
and does not change the state. -/
theorem c6_witness :
    fontAfterA.rasterize 'A' 24 gAfterA =
      some (fontAfterA, gAfterA, texA, ⟨5, 7, 0, 10⟩) :=
  c6_rasterize_idempotent uniformFont 'A' 24 Graphics.new fontAfterA gAfterA texA
    ⟨5, 7, 0, 10⟩ rfl

/-- Emitting one character appends exactly one glyph to the character
buffer. -/
theorem pushCharacter_buffer {size : ℕ} {ch : Char} {st st2 : LayoutSt}
    (h : pushCharacter size ch st = some st2) :
    ∃ e, st2.character_buffer = st.character_buffer ++ [e] := by
  unfold pushCharacter at h
  cases hr : st.font.rasterize ch size st.gfx with
  | none =>
    rw [hr] at h
    exact absurd h (by simp)
  | some r =>
    rw [hr] at h
    dsimp only at h
    simp only [Option.some.injEq] at h
    have hb := congrArg LayoutSt.character_buffer h
    exact ⟨_, hb.symm⟩

/-- Draining a word appends glyphs to the character buffer. -/
theorem emitChars_buffer {size : ℕ} :
    ∀ (word : List Char) (st st2 : LayoutSt),
      emitChars size word st = some st2 →
      ∃ d, st2.character_buffer = st.character_buffer ++ d := by
  intro word
  induction word with
  | nil =>
    intro st st2 h
    simp only [emitChars, Option.some.injEq] at h
    subst h
    exact ⟨[], by simp⟩
  | cons ch rest ih =>
    intro st st2 h
    rw [emitChars] at h
    rcases Option.bind_eq_some.mp h with ⟨st1, h1, h2⟩
    obtain ⟨e, he⟩ := pushCharacter_buffer h1
    obtain ⟨d, hd⟩ := ih st1 st2 h2
    exact ⟨e :: d, by rw [hd, he, List.append_assoc]; rfl⟩

/-- One step of the layout loop appends glyphs to the character buffer. -/
theorem layoutStep_buffer {x : ℚ} {size : ℕ} {maxLen lineHeight : ℚ}
    {st : LayoutSt} {ch : Char} {st2 : LayoutSt}
    (h : layoutStep x size maxLen lineHeight st ch = some st2) :
    ∃ d, st2.character_buffer = st.character_buffer ++ d := by
  unfold layoutStep at h
  split at h
  · simp only [Option.some.injEq] at h
    refine ⟨[], ?_⟩
    rw [← h]
    simp
  · dsimp only at h
    split at h
    next hemit => exact absurd h (by simp)
    next st3 hemit =>
      obtain ⟨d, hd⟩ := emitChars_buffer _ _ _ hemit
      have hd3 : st3.character_buffer = st.character_buffer ++ d := by
        rw [hd]
        congr 1
        split
        · rfl
        · rfl
      split at h
      · simp only [Option.some.injEq] at h
        refine ⟨d, ?_⟩
        rw [← h]
        exact hd3
      · obtain ⟨e, he⟩ := pushCharacter_buffer h
        refine ⟨d ++ [e], ?_⟩
        rw [he, hd3, List.append_assoc]

/-- The whole layout loop appends glyphs to the character buffer. -/
theorem layoutLoop_buffer {x : ℚ} {size : ℕ} {maxLen lineHeight : ℚ} :
    ∀ (text : List Char) (st st2 : LayoutSt),
      layoutLoop x size maxLen lineHeight text st = some st2 →
      ∃ d, st2.character_buffer = st.character_buffer ++ d := by
  intro text
  induction text with
  | nil =>
    intro st st2 h
    simp only [layoutLoop, Option.some.injEq] at h
    subst h
    exact ⟨[], by simp⟩
  | cons ch rest ih =>
    intro st st2 h
    rw [layoutLoop] at h
    rcases Option.bind_eq_some.mp h with ⟨st1, h1, h2⟩
    obtain ⟨d1, hd1⟩ := layoutStep_buffer h1
    obtain ⟨d2, hd2⟩ := ih st1 st2 h2
    exact ⟨d1 ++ d2, by rw [hd2, hd1, List.append_assoc]⟩

/-- Claim C10: layout_text appends its positioned glyphs to the character
buffer without clearing the previous contents, so two undrained calls
accumulate both glyph runs in order; characters yields the whole buffer and
leaves it empty, so an immediately following characters call yields
nothing. -/
theorem c10_layout_appends_characters_drains :
    (∀ (tr : TextRenderer) (gfx : Graphics) (font : Font) (x y : ℚ)
        (text : List Char) (size : ℕ) (maxLen : ℚ) (tr2 : TextRenderer)
        (g2 : Graphics) (f2 : Font),
        tr.layout_text gfx font x y text size maxLen = some (tr2, g2, f2) →
        ∃ d, tr2.character_buffer = tr.character_buffer ++ d) ∧
    (∀ tr : TextRenderer, (tr.characters).1 = tr.character_buffer ∧
        ((tr.characters).2).character_buffer = []) := by
  constructor
  · intro tr gfx font x y text size maxLen tr2 g2 f2 h
    unfold TextRenderer.layout_text at h
    dsimp only at h
    split at h
    next => exact absurd h (by simp)
    next st hloop =>
      split at h
      next => exact absurd h (by simp)
      next st3 hemit =>
        simp only [Option.some.injEq, Prod.mk.injEq] at h
        obtain ⟨h1, h2, h3⟩ := h
        obtain ⟨d1, hd1⟩ := layoutLoop_buffer _ _ _ hloop
        obtain ⟨d2, hd2⟩ := emitChars_buffer _ _ _ hemit
        refine ⟨d1 ++ d2, ?_⟩
        rw [← h1]
        show st3.character_buffer = tr.character_buffer ++ (d1 ++ d2)
        rw [hd2]
        show st.character_buffer ++ d2 = tr.character_buffer ++ (d1 ++ d2)
        rw [hd1]
        show tr.character_buffer ++ d1 ++ d2 = tr.character_buffer ++ (d1 ++ d2)
        rw [List.append_assoc]
  · intro tr
    exact ⟨rfl, rfl⟩

/-- Witness for C10: laying out the empty text changes nothing, and the
append property holds there with an empty delta. -/
theorem c10_witness :
    ∃ d, TextRenderer.default.character_buffer =
      TextRenderer.default.character_buffer ++ d :=
  c10_layout_appends_characters_drains.1 TextRenderer.default Graphics.new
    uniformFont 0 0 [] 12 60 TextRenderer.default Graphics.new uniformFont rfl

end Venus
